import Mathlib

/-!
Verification of sail-server: request validation and script-parameter derivation.

A shallow embedding of `main.go`: the two catalogs, the three validation
functions registered with the validator, the `GET /:name` handler up to the
value handed to the script template, and the library calls the handler relies
on (`strings.Split`, `strings.Join`, `lo.Uniq`, `lo.Contains`, `lo.ContainsBy`,
`regexp.Match`, `validate.Struct`).

Go strings are modelled as Lean `String`s, i.e. sequences of Unicode scalar
values; the regular expression engine of Go works on the decoded runes of the
input, which for well-formed UTF-8 are exactly these characters.
-/

namespace SailServer

/-! ## Catalogs (main.go:15-29) -/

/-- The catalog `availableServices`. -/
def availableServices : List String :=
  ["mysql", "pgsql", "mariadb", "redis", "memcached", "meilisearch",
   "typesense", "minio", "mailpit", "selenium", "soketi"]

/-- The catalog `availablePhps`. -/
def availablePhps : List String := ["74", "80", "81", "82", "83"]

/-! ## Data (main.go:31-45) -/

/-- The struct `params` validated by the handler. -/
structure params where
  Name : String
  Php : String
  With : List String
  deriving DecidableEq, Repr

/-- The struct `scriptParams` handed to the script template. -/
structure scriptParams where
  Name : String
  Php : String
  With : String
  Services : String
  Database : String
  Pest : String
  Devcontainer : String
  deriving DecidableEq, Repr

/-! ## Library calls -/

/-- Go `strings.Split(s, sep)` for a one-character separator, on characters:
the text before the first separator, then the split of what follows it. -/
def splitChars (sep : Char) : List Char → List (List Char)
  | [] => [[]]
  | c :: cs =>
    if c = sep then [] :: splitChars sep cs
    else
      match splitChars sep cs with
      | [] => [[c]]
      | t :: ts => (c :: t) :: ts

/-- Go `strings.Split(s, sep)` on strings. -/
def Split (s : String) (sep : Char) : List String :=
  (splitChars sep s.data).map String.mk

/-- Go `strings.Join(elems, sep)`: empty for no element, otherwise the first
element followed by `sep` and the next element, for each further element. -/
def Join (elems : List String) (sep : String) : String :=
  match elems with
  | [] => ""
  | e :: rest => rest.foldl (fun b s => b ++ sep ++ s) e

/-- Go `lo.Contains(collection, element)`: linear search. -/
def Contains (collection : List String) (element : String) : Bool :=
  match collection with
  | [] => false
  | item :: rest => if item = element then true else Contains rest element

/-- Go `lo.ContainsBy(collection, predicate)`. -/
def ContainsBy {α : Type} (collection : List α) (predicate : α → Bool) : Bool :=
  match collection with
  | [] => false
  | item :: rest => if predicate item then true else ContainsBy rest predicate

/-- The loop of `lo.Uniq`: `result` holds the elements kept so far (the keys of
the `seen` map are exactly its elements); an element already seen is skipped,
any other is appended. -/
def uniqLoop (result : List String) : List String → List String
  | [] => result
  | x :: rest =>
    if Contains result x then uniqLoop result rest
    else uniqLoop (result ++ [x]) rest

/-- Go `lo.Uniq(collection)`. -/
def Uniq (collection : List String) : List String := uniqLoop [] collection

/-! ## Regular expressions (the fragment used by `aplhadashRegex`) -/

/-- Syntax of the regular expressions needed: `\A`, `\z`, a character class,
one-or-more repetition and concatenation. -/
inductive Regex where
  | beginText : Regex
  | endText : Regex
  | cls (p : Char → Bool) : Regex
  | plus (r : Regex) : Regex
  | cat (r s : Regex) : Regex

/-- Number of nodes of a regular expression. -/
def Regex.size : Regex → Nat
  | .beginText => 1
  | .endText => 1
  | .cls _ => 1
  | .plus r => r.size + 1
  | .cat r s => r.size + s.size + 1

/-- Backtracking matcher in continuation-passing style. `atStart` tells whether
the current position is the beginning of the text, `cs` is the remaining text,
and `k` is called at every position where the expression can stop matching.
Every call spends one unit of fuel; without fuel there is no match. -/
def Regex.run : Nat → Regex → Bool → List Char → (Bool → List Char → Bool) → Bool
  | 0, _, _, _, _ => false
  | _ + 1, .beginText, atStart, cs, k => atStart && k atStart cs
  | _ + 1, .endText, atStart, cs, k => cs.isEmpty && k atStart cs
  | _ + 1, .cls _, _, [], _ => false
  | _ + 1, .cls p, _, c :: cs, k => p c && k false cs
  | f + 1, .plus r, a, cs, k =>
    Regex.run f r a cs (fun a' cs' => k a' cs' || Regex.run f (.plus r) a' cs' k)
  | f + 1, .cat r s, a, cs, k =>
    Regex.run f r a cs (fun a' cs' => Regex.run f s a' cs' k)

/-- Unanchored search: try a match at the current position, then at every
later one. -/
def Regex.search (fuel : Nat) (re : Regex) : Bool → List Char → Bool
  | a, [] => re.run fuel a [] (fun _ _ => true)
  | a, c :: cs => re.run fuel a (c :: cs) (fun _ _ => true) || Regex.search fuel re false cs

/-- Go `re.Match([]byte(s))`: whether the text contains a match of `re`. -/
def Regex.Match (re : Regex) (s : String) : Bool :=
  Regex.search (re.size * (s.data.length + 2)) re true s.data

/-- The range tables `unicode.L`, `unicode.M` and `unicode.N` of the Go
standard library, outside ASCII: they are not part of the repository and are
taken as a parameter. -/
structure RangeTables where
  L : Char → Bool
  M : Char → Bool
  N : Char → Bool

/-- Tables in which no character outside ASCII is classified; they serve to
evaluate the definitions on ASCII inputs, where the choice plays no role. -/
def asciiTables : RangeTables :=
  { L := fun _ => false, M := fun _ => false, N := fun _ => false }

/-- Class `\pL`: a Unicode letter. Within ASCII these are `A-Z` and `a-z`. -/
def isLetter (t : RangeTables) (c : Char) : Bool :=
  if c.toNat < 128 then c.isAlpha else t.L c

/-- Class `\pM`: a Unicode mark. There is none within ASCII. -/
def isMark (t : RangeTables) (c : Char) : Bool :=
  if c.toNat < 128 then false else t.M c

/-- Class `\pN`: a Unicode number. Within ASCII these are `0-9`. -/
def isNumber (t : RangeTables) (c : Char) : Bool :=
  if c.toNat < 128 then c.isDigit else t.N c

/-- The class `[\pL\pM\pN_-]`. -/
def alphaDashClass (t : RangeTables) (c : Char) : Bool :=
  isLetter t c || isMark t c || isNumber t c || c == '_' || c == '-'

/-- The expression `\A[\pL\pM\pN_-]+\z` compiled into `aplhadashRegex`
(main.go:60). -/
def aplhadashRegex (t : RangeTables) : Regex :=
  .cat .beginText (.cat (.plus (.cls (alphaDashClass t))) .endText)

/-! ## The registered validation functions (main.go:130-148) -/

/-- Function `validateAlphaDash` (main.go:130-132). -/
def validateAlphaDash (t : RangeTables) (field : String) : Bool :=
  (aplhadashRegex t).Match field

/-- Function `validatePhpVersion` (main.go:134-136). -/
def validatePhpVersion (field : String) : Bool :=
  Contains availablePhps field

/-- The loop of `validateServices` (main.go:142-147). -/
def servicesLoop : List String → Bool
  | [] => true
  | x :: rest => if !Contains availableServices x then false else servicesLoop rest

/-- Function `validateServices` (main.go:138-148): a one-element slice is
compared with the text none, any other slice goes through the loop. -/
def validateServices (field : List String) : Bool :=
  match field with
  | [x] => x == "none"
  | _ => servicesLoop field

/-- The built-in rule `gt=0` on a slice: its length exceeds zero. -/
def isGt0 (field : List String) : Bool := decide (field.length > 0)

/-- Go `validate.Struct(p)`: every field is checked in declaration order, the
rules of one field run left to right and stop at the first that fails, and
each failing field contributes one error carrying its field name. -/
def validateStruct (t : RangeTables) (p : params) : List String :=
  (if validateAlphaDash t p.Name then [] else ["Name"]) ++
  (if validatePhpVersion p.Php then [] else ["Php"]) ++
  (if isGt0 p.With && validateServices p.With then [] else ["With"])

/-! ## The handler of `GET /:name` (main.go:67-126) -/

/-- What the handler reads from a request: the path parameter and the query
parameters (absent or present with a value; presence only for the flags). -/
structure Request where
  name : String
  php : Option String
  withQ : Option String
  pest : Bool
  devcontainer : Bool
  deriving DecidableEq, Repr

/-- Go `ctx.DefaultQuery(key, defaultValue)`. -/
def DefaultQuery (q : Option String) (defaultValue : String) : String :=
  match q with
  | some v => v
  | none => defaultValue

/-- What the handler answers: status 400 with a text, or status 200 with the
script template rendered on the given values. -/
inductive Response where
  | badRequest (msg : String) : Response
  | ok (sp : scriptParams) : Response
  deriving DecidableEq, Repr

/-- The text of the 400 answer for the field `Name`. -/
def invalidNameMsg : String :=
  "Invalid site name. Please only use alpha-numeric characters, dashes, and underscores."

/-- The text of the 400 answer for the field `Php`. -/
def invalidPhpMsg : String :=
  "Invalid PHP version. Please specify a supported version (74, 80, 81, 82 or 83)."

/-- The text of the 400 answer for the field `With`. -/
def invalidServicesMsg : String :=
  "Invalid service name. Please provide one or more of the supported services (" ++
    Join availableServices ", " ++ ") or \"none\"."

/-- The database resolution (main.go:98-105). -/
def databaseOf (w : List String) : String :=
  if Contains w "pgsql" then "--database pgsql"
  else if Contains w "mariadb" then "--database mariadb"
  else if Contains w "none" then ""
  else "--database mysql"

/-- The values handed to the template (main.go:98-124). -/
def buildScript (p : params) (pest devcontainer : Bool) : scriptParams :=
  { Name := p.Name
    Php := p.Php
    With := Join p.With ","
    Services := Join p.With " "
    Database := databaseOf p.With
    Pest := if pest then "--pest" else ""
    Devcontainer := if devcontainer then "--devcontainer" else "" }

/-- The struct `p` built by the handler (main.go:68-76). -/
def requestParams (req : Request) : params :=
  { Name := req.name
    Php := DefaultQuery req.php "83"
    With := Uniq (Split (DefaultQuery req.withQ "mysql,redis,meilisearch,mailpit,selenium") ',') }

/-- The handler. -/
def handler (t : RangeTables) (req : Request) : Response :=
  let p := requestParams req
  let errs := validateStruct t p
  if !errs.isEmpty && ContainsBy errs (fun item => item == "Name") then
    .badRequest invalidNameMsg
  else if !errs.isEmpty && ContainsBy errs (fun item => item == "Php") then
    .badRequest invalidPhpMsg
  else if !errs.isEmpty && ContainsBy errs (fun item => item == "With") then
    .badRequest invalidServicesMsg
  else
    .ok (buildScript p req.pest req.devcontainer)

/-- A request carrying all query parameters explicitly. -/
def mkRequest (name php w : String) (pest devcontainer : Bool) : Request :=
  { name := name, php := some php, withQ := some w, pest := pest, devcontainer := devcontainer }

/-! ## Library calls: basic facts -/

theorem Contains_iff (l : List String) (x : String) : Contains l x = true ↔ x ∈ l := by
  induction l with
  | nil => simp [Contains]
  | cons a l ih =>
    unfold Contains
    by_cases h : a = x
    · simp [h]
    · have h' : ¬ x = a := fun e => h e.symm
      simp [h, h', ih]

theorem Contains_eq_false_iff (l : List String) (x : String) :
    Contains l x = false ↔ x ∉ l := by
  rw [← Contains_iff]; simp

theorem ContainsBy_iff {α : Type} (l : List α) (p : α → Bool) :
    ContainsBy l p = true ↔ ∃ x ∈ l, p x = true := by
  induction l with
  | nil => simp [ContainsBy]
  | cons a l ih =>
    unfold ContainsBy
    by_cases h : p a = true
    · simp [h]
    · simp [h, ih]

theorem servicesLoop_iff (l : List String) :
    servicesLoop l = true ↔ ∀ x ∈ l, x ∈ availableServices := by
  induction l with
  | nil => simp [servicesLoop]
  | cons a l ih =>
    unfold servicesLoop
    by_cases h : Contains availableServices a = true
    · have ha := (Contains_iff _ _).1 h
      simp [h, ih, ha]
    · have ha : a ∉ availableServices := fun hm => h ((Contains_iff _ _).2 hm)
      simp [h, ha]

/-! ## The regular expression of the name rule -/

theorem run_plus_eq (f : Nat) (r : Regex) (a : Bool) (cs : List Char)
    (k : Bool → List Char → Bool) :
    Regex.run (f + 1) (.plus r) a cs k
      = Regex.run f r a cs (fun a' cs' => k a' cs' || Regex.run f (.plus r) a' cs' k) := rfl

theorem run_cat_eq (f : Nat) (r s : Regex) (a : Bool) (cs : List Char)
    (k : Bool → List Char → Bool) :
    Regex.run (f + 1) (.cat r s) a cs k
      = Regex.run f r a cs (fun a' cs' => Regex.run f s a' cs' k) := rfl

theorem run_cls_nil (f : Nat) (p : Char → Bool) (a : Bool) (k : Bool → List Char → Bool) :
    Regex.run (f + 1) (.cls p) a [] k = false := rfl

theorem run_cls_cons (f : Nat) (p : Char → Bool) (a : Bool) (c : Char) (cs : List Char)
    (k : Bool → List Char → Bool) :
    Regex.run (f + 1) (.cls p) a (c :: cs) k = (p c && k false cs) := rfl

theorem run_beginText (f : Nat) (a : Bool) (cs : List Char) (k : Bool → List Char → Bool) :
    Regex.run (f + 1) .beginText a cs k = (a && k a cs) := rfl

theorem run_endText (f : Nat) (a : Bool) (cs : List Char) (k : Bool → List Char → Bool) :
    Regex.run (f + 1) .endText a cs k = (cs.isEmpty && k a cs) := rfl

theorem run_plus_cls (p : Char → Bool) (k : Bool → List Char → Bool)
    (hk : ∀ a cs, k a cs = cs.isEmpty) :
    ∀ (cs : List Char) (f : Nat) (a : Bool), cs.length + 2 ≤ f →
      Regex.run f (.plus (.cls p)) a cs k = (!cs.isEmpty && cs.all p) := by
  intro cs
  induction cs with
  | nil =>
    intro f a hf
    obtain ⟨g, rfl⟩ : ∃ g, f = g + 2 := ⟨f - 2, by omega⟩
    rw [run_plus_eq, run_cls_nil]; rfl
  | cons c t ih =>
    intro f a hf
    obtain ⟨g, rfl⟩ : ∃ g, f = g + 2 := ⟨f - 2, by omega⟩
    have hg : t.length + 2 ≤ g + 1 := by simp at hf; omega
    rw [run_plus_eq, run_cls_cons, hk, ih (g + 1) false hg]
    cases t <;> simp

theorem run_aplhadash (t : RangeTables) (cs : List Char) (f : Nat)
    (hf : cs.length + 4 ≤ f) :
    Regex.run f (aplhadashRegex t) true cs (fun _ _ => true)
      = (!cs.isEmpty && cs.all (alphaDashClass t)) := by
  obtain ⟨g, rfl⟩ : ∃ g, f = g + 3 := ⟨f - 3, by omega⟩
  have hg : cs.length + 2 ≤ g + 1 := by omega
  unfold aplhadashRegex
  rw [run_cat_eq, run_beginText, Bool.true_and, run_cat_eq]
  exact run_plus_cls (alphaDashClass t) _ (by intro a cs; rw [run_endText]; simp) cs (g + 1) true hg

theorem run_aplhadash_later (t : RangeTables) (cs : List Char) (f : Nat) :
    Regex.run f (aplhadashRegex t) false cs (fun _ _ => true) = false := by
  cases f with
  | zero => simp [Regex.run]
  | succ g =>
    cases g with
    | zero => simp [aplhadashRegex, Regex.run]
    | succ g => simp [aplhadashRegex, Regex.run]

theorem search_aplhadash_later (t : RangeTables) (f : Nat) (cs : List Char) :
    Regex.search f (aplhadashRegex t) false cs = false := by
  induction cs with
  | nil => simp [Regex.search, run_aplhadash_later]
  | cons c cs ih => simp [Regex.search, run_aplhadash_later, ih]

theorem validateAlphaDash_eq (t : RangeTables) (name : String) :
    validateAlphaDash t name
      = (!name.data.isEmpty && name.data.all (alphaDashClass t)) := by
  have hsize : (aplhadashRegex t).size = 6 := by simp [aplhadashRegex, Regex.size]
  have hf : name.data.length + 4 ≤ (aplhadashRegex t).size * (name.data.length + 2) := by
    rw [hsize]; omega
  unfold validateAlphaDash Regex.Match
  cases hcs : name.data with
  | nil =>
    rw [hcs] at hf
    rw [Regex.search, run_aplhadash t [] _ hf]
  | cons c cs =>
    rw [hcs] at hf
    simp only [Regex.search, run_aplhadash t (c :: cs) _ hf, search_aplhadash_later,
      Bool.or_false]

/-! ## Deduplication -/

theorem uniqLoop_eq (l : List String) : ∀ acc : List String,
    uniqLoop acc l = acc ++ (uniqLoop [] l).filter (fun y => decide (y ∉ acc)) := by
  induction l with
  | nil => intro acc; simp [uniqLoop]
  | cons x l ih =>
    intro acc
    have hx : uniqLoop [] (x :: l) = x :: (uniqLoop [] l).filter (fun y => decide (y ∉ [x])) := by
      have h0 : Contains [] x = false := rfl
      rw [uniqLoop, h0]
      simpa using ih [x]
    rw [hx]
    by_cases h : Contains acc x = true
    · have hm := (Contains_iff _ _).1 h
      rw [uniqLoop, if_pos h, ih acc]
      simp only [List.filter_cons, hm, not_true_eq_false, decide_False, List.filter_filter]
      congr 1
      apply List.filter_congr
      intro y _
      by_cases hy : y ∈ acc
      · simp [hy]
      · have : y ≠ x := fun e => hy (e ▸ hm)
        simp [hy, this]
    · have hm : x ∉ acc := fun hm => h ((Contains_iff _ _).2 hm)
      rw [uniqLoop, if_neg h, ih (acc ++ [x])]
      simp only [List.filter_cons, hm, not_false_eq_true, decide_True, List.filter_filter]
      simp only [if_true, List.append_assoc, List.singleton_append]
      congr 2
      apply List.filter_congr
      intro y _
      simp [not_or, Bool.and_comm]

theorem Uniq_nil : Uniq [] = [] := rfl

theorem Uniq_cons (x : String) (l : List String) :
    Uniq (x :: l) = x :: (Uniq l).filter (fun y => decide (y ≠ x)) := by
  have h0 : Contains [] x = false := rfl
  unfold Uniq
  rw [uniqLoop, h0]
  simpa using uniqLoop_eq l [x]

theorem mem_Uniq (l : List String) (x : String) : x ∈ Uniq l ↔ x ∈ l := by
  induction l with
  | nil => simp [Uniq_nil]
  | cons a l ih =>
    rw [Uniq_cons]
    by_cases h : x = a
    · simp [h]
    · simp [h, ih]

theorem nodup_Uniq (l : List String) : (Uniq l).Nodup := by
  induction l with
  | nil => simp [Uniq_nil]
  | cons a l ih =>
    rw [Uniq_cons, List.nodup_cons]
    exact ⟨by simp, ih.filter _⟩

theorem Uniq_sublist (l : List String) : (Uniq l).Sublist l := by
  induction l with
  | nil => simp [Uniq_nil]
  | cons a l ih =>
    rw [Uniq_cons]
    exact ((List.filter_sublist _).trans ih).cons₂ a

theorem indexOf_filter_lt (p : String → Bool) (x y : String) (hx : p x = true)
    (hy : p y = true) (l : List String) :
    (List.indexOf x (l.filter p) < List.indexOf y (l.filter p)
      ↔ List.indexOf x l < List.indexOf y l) := by
  induction l with
  | nil => simp
  | cons b l ih =>
    by_cases hbx : b = x
    · subst hbx
      simp only [List.filter_cons, hx, if_true, List.indexOf_cons_self]
      by_cases hby : b = y
      · subst hby; simp
      · simp [List.indexOf_cons_ne _ hby]
    · by_cases hby : b = y
      · subst hby
        simp [List.filter_cons, hy]
      · by_cases hb : p b = true
        · simp [List.filter_cons, hb, List.indexOf_cons_ne _ hbx, List.indexOf_cons_ne _ hby, ih]
        · simp [List.filter_cons, hb, List.indexOf_cons_ne _ hbx, List.indexOf_cons_ne _ hby, ih]

theorem indexOf_Uniq_lt (x y : String) (l : List String) :
    (List.indexOf x (Uniq l) < List.indexOf y (Uniq l)
      ↔ List.indexOf x l < List.indexOf y l) := by
  induction l with
  | nil => simp [Uniq_nil]
  | cons a l ih =>
    rw [Uniq_cons]
    by_cases hax : a = x
    · subst hax
      by_cases hay : a = y
      · subst hay; simp
      · simp [List.indexOf_cons_ne _ hay]
    · by_cases hay : a = y
      · subst hay; simp
      · have hx : x ≠ a := fun e => hax e.symm
        have hy : y ≠ a := fun e => hay e.symm
        simp only [List.indexOf_cons_ne _ hax, List.indexOf_cons_ne _ hay,
          Nat.succ_lt_succ_iff, Nat.add_lt_add_iff_right]
        rw [indexOf_filter_lt _ x y (by simpa using hx) (by simpa using hy), ih]

/-! ## The handler as a chain of rules -/

/-- The three rules applied to the struct of a request. -/
theorem validateStruct_eq_nil (t : RangeTables) (p : params) :
    validateStruct t p = [] ↔
      validateAlphaDash t p.Name = true ∧ validatePhpVersion p.Php = true ∧
        (isGt0 p.With && validateServices p.With) = true := by
  unfold validateStruct
  cases validateAlphaDash t p.Name <;> cases validatePhpVersion p.Php <;>
    cases (isGt0 p.With && validateServices p.With) <;> simp

theorem handler_eq (t : RangeTables) (req : Request) :
    handler t req =
      if validateAlphaDash t req.name = false then .badRequest invalidNameMsg
      else if validatePhpVersion (requestParams req).Php = false then .badRequest invalidPhpMsg
      else if (isGt0 (requestParams req).With && validateServices (requestParams req).With) = false
        then .badRequest invalidServicesMsg
      else .ok (buildScript (requestParams req) req.pest req.devcontainer) := by
  have hn : (requestParams req).Name = req.name := rfl
  unfold handler validateStruct
  simp only [hn]
  cases validateAlphaDash t req.name <;> cases validatePhpVersion (requestParams req).Php <;>
    cases (isGt0 (requestParams req).With && validateServices (requestParams req).With) <;>
    simp [ContainsBy]

theorem String_length_eq (s : String) : s.length = s.data.length := rfl

theorem alphaDashClass_iff (t : RangeTables) (c : Char) :
    alphaDashClass t c = true ↔
      isLetter t c = true ∨ isMark t c = true ∨ isNumber t c = true ∨ c = '_' ∨ c = '-' := by
  simp [alphaDashClass, or_assoc]

theorem validateAlphaDash_iff (t : RangeTables) (name : String) :
    validateAlphaDash t name = true ↔
      1 ≤ name.length ∧ ∀ c ∈ name.data,
        isLetter t c = true ∨ isMark t c = true ∨ isNumber t c = true ∨ c = '_' ∨ c = '-' := by
  rw [validateAlphaDash_eq, String_length_eq]
  simp only [Bool.and_eq_true, Bool.not_eq_true', List.all_eq_true, alphaDashClass_iff]
  constructor
  · rintro ⟨h1, h2⟩
    refine ⟨?_, h2⟩
    cases hd : name.data with
    | nil => rw [hd] at h1; simp at h1
    | cons c cs => simp
  · rintro ⟨h1, h2⟩
    refine ⟨?_, h2⟩
    cases hd : name.data with
    | nil => rw [hd] at h1; simp at h1
    | cons c cs => simp

theorem validateAlphaDash_of_bad_char (t : RangeTables) (name : String) (c : Char)
    (hc : c ∈ name.data) (hbad : alphaDashClass t c = false) :
    validateAlphaDash t name = false := by
  rw [validateAlphaDash_eq]
  have : name.data.all (alphaDashClass t) = false := by
    rw [List.all_eq_false]
    exact ⟨c, hc, by simp [hbad]⟩
  simp [this]

theorem validateServices_of_two_le (l : List String) (h : 1 < l.length) :
    validateServices l = servicesLoop l := by
  match l, h with
  | _ :: _ :: _, _ => rfl

theorem none_not_available : "none" ∉ availableServices := by decide

/-! ## Claims -/

/-- C1 (the code departs from the claim): a one-element service list passes
`validateServices` exactly when its element is the text none, so a single
catalog member such as redis, although it belongs to `availableServices`, is
rejected with the service message. -/
theorem validateServices_single_catalog_member_rejected (t : RangeTables) :
    (∀ x : String, validateServices [x] = true ↔ x = "none") ∧
    Uniq (Split "redis" ',') = ["redis"] ∧
    "redis" ∈ availableServices ∧
    validateServices (Uniq (Split "redis" ',')) = false ∧
    handler t (mkRequest "my-app" "83" "redis" false false)
      = .badRequest invalidServicesMsg ∧
    handler t (mkRequest "my-app" "83" "mariadb" false false)
      = .badRequest invalidServicesMsg ∧
    handler t (mkRequest "my-app" "83" "bogus" false false)
      = .badRequest invalidServicesMsg := by
  refine ⟨?_, by decide, by decide, by decide, by rfl, by rfl, by rfl⟩
  intro x
  simp [validateServices]

/-- C2: the answer of the handler is decided by the first failing rule in the
order name, PHP version, service list; a request is answered with the script
values exactly when all three rules pass, and a rejection carries exactly one
of the three messages. -/
theorem handler_first_failing_rule (t : RangeTables) (req : Request) :
    (validateAlphaDash t req.name = false →
      handler t req = .badRequest invalidNameMsg) ∧
    (validateAlphaDash t req.name = true →
      validatePhpVersion (requestParams req).Php = false →
      handler t req = .badRequest invalidPhpMsg) ∧
    (validateAlphaDash t req.name = true →
      validatePhpVersion (requestParams req).Php = true →
      (isGt0 (requestParams req).With && validateServices (requestParams req).With) = false →
      handler t req = .badRequest invalidServicesMsg) ∧
    ((∃ sp, handler t req = .ok sp) ↔
      validateAlphaDash t req.name = true ∧
      validatePhpVersion (requestParams req).Php = true ∧
      (isGt0 (requestParams req).With && validateServices (requestParams req).With) = true) ∧
    (∀ sp, handler t req = .ok sp →
      validateStruct t (requestParams req) = [] ∧
      sp = buildScript (requestParams req) req.pest req.devcontainer) ∧
    (∀ msg, handler t req = .badRequest msg →
      validateStruct t (requestParams req) ≠ [] ∧
      (msg = invalidNameMsg ∨ msg = invalidPhpMsg ∨ msg = invalidServicesMsg)) := by
  have hn : (requestParams req).Name = req.name := rfl
  simp only [ne_eq, validateStruct_eq_nil, hn, handler_eq]
  cases validateAlphaDash t req.name <;> cases validatePhpVersion (requestParams req).Php <;>
    cases (isGt0 (requestParams req).With && validateServices (requestParams req).With) <;>
    simp

/-- C2, at the request name=bad name!, php=99, with=bogus: all three rules fail
and the name message is the answer. -/
theorem handler_first_failing_rule_witness :
    handler asciiTables (mkRequest "bad name!" "99" "bogus" false false)
      = .badRequest invalidNameMsg :=
  (handler_first_failing_rule asciiTables
    (mkRequest "bad name!" "99" "bogus" false false)).1 (by rfl)

theorem requestParams_mkRequest (name php w : String) (pest dev : Bool) :
    requestParams (mkRequest name php w pest dev)
      = { Name := name, Php := php, With := Uniq (Split w ',') } := rfl

theorem validateServices_none_with_other (l : List String) (x : String)
    (hnone : "none" ∈ l) (hx : x ∈ l) (hne : x ≠ "none") : validateServices l = false := by
  match l, hnone, hx with
  | [y], hnone, hx =>
    simp only [List.mem_singleton] at hnone hx
    exact absurd (hx.trans hnone.symm) hne
  | y :: z :: r, hnone, _ =>
    rw [validateServices_of_two_le _ (by simp)]
    cases h : servicesLoop (y :: z :: r) with
    | false => rfl
    | true => exact absurd ((servicesLoop_iff _).1 h "none" hnone) none_not_available

/-- C3: the name check succeeds exactly on the names of length at least one
whose every character is a letter, a mark, a number, an underscore or a hyphen;
the empty name and every name containing a space, a slash or an exclamation
mark fail it, and the handler answers them with the name message. -/
theorem validateAlphaDash_full_class_match (t : RangeTables) (name : String) :
    (validateAlphaDash t name = true ↔
      1 ≤ name.length ∧ ∀ c ∈ name.data,
        isLetter t c = true ∨ isMark t c = true ∨ isNumber t c = true ∨ c = '_' ∨ c = '-') ∧
    (name = "" ∨ ' ' ∈ name.data ∨ '/' ∈ name.data ∨ '!' ∈ name.data →
      validateAlphaDash t name = false ∧
      ∀ php w pest dev, handler t
        { name := name, php := php, withQ := w, pest := pest, devcontainer := dev }
          = .badRequest invalidNameMsg) := by
  refine ⟨validateAlphaDash_iff t name, ?_⟩
  intro h
  have hfalse : validateAlphaDash t name = false := by
    rcases h with h | h | h | h
    · subst h; rfl
    · exact validateAlphaDash_of_bad_char t name ' ' h (by rfl)
    · exact validateAlphaDash_of_bad_char t name '/' h (by rfl)
    · exact validateAlphaDash_of_bad_char t name '!' h (by rfl)
  refine ⟨hfalse, ?_⟩
  intro php w pest dev
  rw [handler_eq]
  simp [hfalse]

/-- C3, at the name `bad name!`, which contains a space. -/
theorem validateAlphaDash_full_class_match_witness :
    validateAlphaDash asciiTables "bad name!" = false ∧
    ∀ php w pest dev, handler asciiTables
      { name := "bad name!", php := php, withQ := w, pest := pest, devcontainer := dev }
        = .badRequest invalidNameMsg :=
  (validateAlphaDash_full_class_match asciiTables "bad name!").2 (Or.inr (Or.inl (by decide)))

/-- C4: the PHP version check succeeds exactly on the five tokens 74, 80, 81,
82 and 83; the tokens 7.4, 8.3, 83 with a leading blank and the empty token
fail, and a request with a valid name and a failing token is answered with the
PHP message. -/
theorem validatePhpVersion_exact_tokens (token : String) :
    (validatePhpVersion token = true ↔
      token = "74" ∨ token = "80" ∨ token = "81" ∨ token = "82" ∨ token = "83") ∧
    (token = "7.4" ∨ token = "8.3" ∨ token = " 83" ∨ token = "" →
      validatePhpVersion token = false) ∧
    (∀ t name w pest dev, validateAlphaDash t name = true →
      validatePhpVersion token = false →
      handler t { name := name, php := some token, withQ := w, pest := pest, devcontainer := dev }
        = .badRequest invalidPhpMsg) := by
  refine ⟨?_, ?_, ?_⟩
  · unfold validatePhpVersion
    rw [Contains_iff]
    simp [availablePhps]
  · intro h
    rcases h with h | h | h | h <;> subst h <;> rfl
  · intro t name w pest dev hname hphp
    have hp : (requestParams
        { name := name, php := some token, withQ := w, pest := pest, devcontainer := dev }).Php
          = token := rfl
    rw [handler_eq]
    simp [hname, hp, hphp]

/-- C4, at the token `7.4` and the name `my-app`. -/
theorem validatePhpVersion_exact_tokens_witness :
    validatePhpVersion "7.4" = false ∧
    handler asciiTables (mkRequest "my-app" "7.4" "mysql" false false)
      = .badRequest invalidPhpMsg :=
  ⟨(validatePhpVersion_exact_tokens "7.4").2.1 (Or.inl rfl),
   (validatePhpVersion_exact_tokens "7.4").2.2 asciiTables "my-app" (some "mysql") false false
      (by decide) (by decide)⟩

/-- C5: a service list with more than one element passes `validateServices`
exactly when every element belongs to the catalog; hence a `with` value naming
none together with another token is rejected with the service message, while
none alone is accepted with the service list consisting of none. -/
theorem validateServices_many_all_catalog :
    (∀ l : List String, 1 < l.length →
      (validateServices l = true ↔ ∀ x ∈ l, x ∈ availableServices)) ∧
    (∀ (w x : String), "none" ∈ Split w ',' → x ∈ Split w ',' → x ≠ "none" →
      validateServices (Uniq (Split w ',')) = false ∧
      ∀ t name php pest dev, validateAlphaDash t name = true →
        validatePhpVersion php = true →
        handler t (mkRequest name php w pest dev) = .badRequest invalidServicesMsg) ∧
    (Uniq (Split "none" ',') = ["none"] ∧ validateServices (Uniq (Split "none" ',')) = true ∧
      ∀ t name php pest dev, validateAlphaDash t name = true →
        validatePhpVersion php = true →
        handler t (mkRequest name php "none" pest dev)
          = .ok (buildScript { Name := name, Php := php, With := ["none"] } pest dev)) := by
  refine ⟨?_, ?_, by decide, by decide, ?_⟩
  · intro l hl
    rw [validateServices_of_two_le l hl, servicesLoop_iff]
  · intro w x hnone hx hne
    have hv : validateServices (Uniq (Split w ',')) = false :=
      validateServices_none_with_other _ x ((mem_Uniq _ _).2 hnone) ((mem_Uniq _ _).2 hx) hne
    refine ⟨hv, ?_⟩
    intro t name php pest dev hname hphp
    have hn : (mkRequest name php w pest dev).name = name := rfl
    rw [handler_eq, requestParams_mkRequest, hn]
    simp [hname, hphp, hv]
  · intro t name php pest dev hname hphp
    have hn : (mkRequest name php "none" pest dev).name = name := rfl
    have hu : Uniq (Split "none" ',') = ["none"] := by decide
    have hv : (isGt0 ["none"] && validateServices ["none"]) = true := by decide
    rw [handler_eq, requestParams_mkRequest, hn, hu]
    simp only [hname, hphp, hv]
    rfl

/-- C5, at the list pgsql, mariadb and at the value `none,mysql`. -/
theorem validateServices_many_all_catalog_witness :
    (validateServices ["pgsql", "mariadb"] = true ↔
      ∀ x ∈ ["pgsql", "mariadb"], x ∈ availableServices) ∧
    validateServices (Uniq (Split "none,mysql" ',')) = false ∧
    handler asciiTables (mkRequest "my-app" "83" "none,mysql" false false)
      = .badRequest invalidServicesMsg :=
  ⟨validateServices_many_all_catalog.1 ["pgsql", "mariadb"] (by decide),
   (validateServices_many_all_catalog.2.1 "none,mysql" "mysql" (by decide) (by decide)
      (by decide)).1,
   (validateServices_many_all_catalog.2.1 "none,mysql" "mysql" (by decide) (by decide)
      (by decide)).2 asciiTables "my-app" "83" false false (by decide) (by decide)⟩

theorem databaseOf_eq (s : List String) :
    databaseOf s =
      if "pgsql" ∈ s then "--database pgsql"
      else if "mariadb" ∈ s then "--database mariadb"
      else if "none" ∈ s then ""
      else "--database mysql" := by
  unfold databaseOf
  by_cases h1 : "pgsql" ∈ s
  · simp [h1, (Contains_iff s "pgsql").2 h1]
  · have c1 : Contains s "pgsql" = false := (Contains_eq_false_iff _ _).2 h1
    by_cases h2 : "mariadb" ∈ s
    · simp [h1, c1, h2, (Contains_iff s "mariadb").2 h2]
    · have c2 : Contains s "mariadb" = false := (Contains_eq_false_iff _ _).2 h2
      by_cases h3 : "none" ∈ s
      · simp [h1, c1, h2, c2, h3, (Contains_iff s "none").2 h3]
      · have c3 : Contains s "none" = false := (Contains_eq_false_iff _ _).2 h3
        simp [h1, c1, h2, c2, h3, c3]

theorem handler_ok_eq (t : RangeTables) (req : Request) (sp : scriptParams)
    (h : handler t req = .ok sp) :
    sp = buildScript (requestParams req) req.pest req.devcontainer := by
  rw [handler_eq] at h
  split at h
  · cases h
  · split at h
    · cases h
    · split at h
      · cases h
      · exact (Response.ok.inj h).symm

/-- C6: the database flag is `--database pgsql` when pgsql is in the list,
otherwise `--database mariadb` when mariadb is, otherwise empty when none is,
otherwise `--database mysql`; it is always one of these four values, a list
naming both pgsql and mariadb resolves to pgsql in either order, and this is
the Database value of every accepted request. -/
theorem databaseOf_resolution (s : List String) :
    (databaseOf s =
      if "pgsql" ∈ s then "--database pgsql"
      else if "mariadb" ∈ s then "--database mariadb"
      else if "none" ∈ s then ""
      else "--database mysql") ∧
    (databaseOf s = "--database pgsql" ∨ databaseOf s = "--database mariadb" ∨
      databaseOf s = "" ∨ databaseOf s = "--database mysql") ∧
    ("pgsql" ∈ s → "mariadb" ∈ s → databaseOf s = "--database pgsql") ∧
    databaseOf ["pgsql", "mariadb"] = "--database pgsql" ∧
    databaseOf ["mariadb", "pgsql"] = "--database pgsql" ∧
    (∀ t req sp, handler t req = .ok sp →
      (requestParams req).With = s → sp.Database = databaseOf s) := by
  refine ⟨databaseOf_eq s, ?_, ?_, by decide, by decide, ?_⟩
  · rw [databaseOf_eq]
    by_cases h1 : "pgsql" ∈ s
    · simp [h1]
    · by_cases h2 : "mariadb" ∈ s
      · simp [h1, h2]
      · by_cases h3 : "none" ∈ s
        · simp [h1, h2, h3]
        · simp [h1, h2, h3]
  · intro h1 _
    rw [databaseOf_eq]
    simp [h1]
  · intro t req sp h hs
    rw [handler_ok_eq t req sp h, ← hs]
    rfl

/-- C6, at the list mariadb, redis, pgsql and the request with=pgsql,mariadb. -/
theorem databaseOf_resolution_witness :
    databaseOf ["mariadb", "redis", "pgsql"] = "--database pgsql" ∧
    (buildScript (requestParams (mkRequest "my-app" "83" "pgsql,mariadb" false false))
      false false).Database = databaseOf ["pgsql", "mariadb"] :=
  ⟨(databaseOf_resolution ["mariadb", "redis", "pgsql"]).2.2.1 (by decide) (by decide),
   (databaseOf_resolution ["pgsql", "mariadb"]).2.2.2.2.2 asciiTables
      (mkRequest "my-app" "83" "pgsql,mariadb" false false) _ (by rfl) (by decide)⟩

/-- C7 (the code departs from the claim): with a valid name and a supported
PHP version, with=mariadb and with=redis are rejected with the service message
although the database resolution would give `--database mariadb` and
`--database mysql` for these lists; with=pgsql,mariadb and with=none are
accepted with the flags `--database pgsql` and the empty text. -/
theorem handler_single_service_database_flags (t : RangeTables) :
    handler t (mkRequest "my-app" "83" "mariadb" false false)
      = .badRequest invalidServicesMsg ∧
    handler t (mkRequest "my-app" "83" "redis" false false)
      = .badRequest invalidServicesMsg ∧
    databaseOf (Uniq (Split "mariadb" ',')) = "--database mariadb" ∧
    databaseOf (Uniq (Split "redis" ',')) = "--database mysql" ∧
    handler t (mkRequest "my-app" "83" "pgsql,mariadb" false false)
      = .ok { Name := "my-app", Php := "83", With := "pgsql,mariadb",
              Services := "pgsql mariadb", Database := "--database pgsql",
              Pest := "", Devcontainer := "" } ∧
    handler t (mkRequest "my-app" "83" "none" false false)
      = .ok { Name := "my-app", Php := "83", With := "none", Services := "none",
              Database := "", Pest := "", Devcontainer := "" } := by
  refine ⟨by rfl, by rfl, by decide, by decide, by rfl, by rfl⟩

/-- C8: the service list validated and used by the handler is `lo.Uniq` of the
comma-split of the `with` value; it has no duplicates, the same tokens as the
split, and keeps them in the order of their first occurrence (it is a sublist
of the split, and one token precedes another in it exactly when its first
occurrence in the split precedes that of the other); for
with=mysql,mysql,redis it is mysql, redis, and validation succeeds. -/
theorem Uniq_Split_first_occurrence (req : Request) :
    (requestParams req).With
      = Uniq (Split (DefaultQuery req.withQ "mysql,redis,meilisearch,mailpit,selenium") ',') ∧
    (∀ w : String,
      (Uniq (Split w ',')).Nodup ∧
      (∀ x, x ∈ Uniq (Split w ',') ↔ x ∈ Split w ',') ∧
      (Uniq (Split w ',')).Sublist (Split w ',') ∧
      (∀ x y, List.indexOf x (Uniq (Split w ',')) < List.indexOf y (Uniq (Split w ','))
        ↔ List.indexOf x (Split w ',') < List.indexOf y (Split w ','))) ∧
    Split "mysql,mysql,redis" ',' = ["mysql", "mysql", "redis"] ∧
    Uniq (Split "mysql,mysql,redis" ',') = ["mysql", "redis"] ∧
    validateServices (Uniq (Split "mysql,mysql,redis" ',')) = true ∧
    (∀ t name php pest dev, validateAlphaDash t name = true →
      validatePhpVersion php = true →
      handler t (mkRequest name php "mysql,mysql,redis" pest dev)
        = .ok (buildScript { Name := name, Php := php, With := ["mysql", "redis"] } pest dev)) := by
  refine ⟨rfl, ?_, by decide, by decide, by decide, ?_⟩
  · intro w
    exact ⟨nodup_Uniq _, mem_Uniq _, Uniq_sublist _, fun x y => indexOf_Uniq_lt x y _⟩
  · intro t name php pest dev hname hphp
    have hn : (mkRequest name php "mysql,mysql,redis" pest dev).name = name := rfl
    have hu : Uniq (Split "mysql,mysql,redis" ',') = ["mysql", "redis"] := by decide
    have hv : (isGt0 ["mysql", "redis"] && validateServices ["mysql", "redis"]) = true := by
      decide
    rw [handler_eq, requestParams_mkRequest, hn, hu]
    simp only [hname, hphp, hv]
    rfl

/-- C8, at the request name=my-app, php=83, with=mysql,mysql,redis. -/
theorem Uniq_Split_first_occurrence_witness :
    handler asciiTables (mkRequest "my-app" "83" "mysql,mysql,redis" false false)
      = .ok (buildScript { Name := "my-app", Php := "83", With := ["mysql", "redis"] }
          false false) :=
  (Uniq_Split_first_occurrence (mkRequest "my-app" "83" "mysql,mysql,redis" false false)).2.2.2.2.2
    asciiTables "my-app" "83" false false (by decide) (by decide)

/-- C9: in the values produced for an accepted request, Name is the request
name, Php is the request PHP token unchanged, With is the deduplicated service
list joined by a comma and Services is the same list joined by one blank; for
name=my-app, php=82, with=redis,pgsql and no flag the values are my-app, 82,
`redis,pgsql`, `redis pgsql`, `--database pgsql` and two empty flags. -/
theorem handler_ok_fields (t : RangeTables) (req : Request) (sp : scriptParams)
    (h : handler t req = .ok sp) :
    (sp.Name = req.name ∧
      sp.Php = DefaultQuery req.php "83" ∧
      sp.With = Join (Uniq (Split
        (DefaultQuery req.withQ "mysql,redis,meilisearch,mailpit,selenium") ',')) "," ∧
      sp.Services = Join (Uniq (Split
        (DefaultQuery req.withQ "mysql,redis,meilisearch,mailpit,selenium") ',')) " ") ∧
    handler t (mkRequest "my-app" "82" "redis,pgsql" false false)
      = .ok { Name := "my-app", Php := "82", With := "redis,pgsql",
              Services := "redis pgsql", Database := "--database pgsql",
              Pest := "", Devcontainer := "" } := by
  refine ⟨?_, by rfl⟩
  rw [handler_ok_eq t req sp h]
  exact ⟨rfl, rfl, rfl, rfl⟩

/-- C9, at the request name=my-app, php=82, with=redis,pgsql. -/
theorem handler_ok_fields_witness :
    handler asciiTables (mkRequest "my-app" "82" "redis,pgsql" false false)
      = .ok { Name := "my-app", Php := "82", With := "redis,pgsql",
              Services := "redis pgsql", Database := "--database pgsql",
              Pest := "", Devcontainer := "" } ∧
    (buildScript (requestParams (mkRequest "my-app" "82" "redis,pgsql" false false))
      false false).With = Join (Uniq (Split "redis,pgsql" ',')) "," :=
  ⟨(handler_ok_fields asciiTables (mkRequest "my-app" "82" "redis,pgsql" false false) _
      (by rfl)).2,
   (handler_ok_fields asciiTables (mkRequest "my-app" "82" "redis,pgsql" false false) _
      (by rfl)).1.2.2.1⟩

/-- C10: for an accepted request Pest is `--pest` when the pest flag is present
and empty otherwise, Devcontainer is `--devcontainer` when the devcontainer flag
is present and empty otherwise; replacing the two booleans changes nothing but
these two values, each following its own boolean, and a rejected request stays
rejected with the same message. -/
theorem handler_flags_frame (t : RangeTables) (name : String) (php w : Option String)
    (pest dev : Bool) :
    (∀ sp, handler t { name := name, php := php, withQ := w, pest := pest, devcontainer := dev }
        = .ok sp →
      sp.Pest = (if pest then "--pest" else "") ∧
      sp.Devcontainer = (if dev then "--devcontainer" else "") ∧
      ∀ pest' dev',
        handler t { name := name, php := php, withQ := w, pest := pest', devcontainer := dev' }
          = .ok { Name := sp.Name, Php := sp.Php, With := sp.With, Services := sp.Services,
                  Database := sp.Database,
                  Pest := if pest' then "--pest" else "",
                  Devcontainer := if dev' then "--devcontainer" else "" }) ∧
    (∀ msg, handler t { name := name, php := php, withQ := w, pest := pest, devcontainer := dev }
        = .badRequest msg →
      ∀ pest' dev',
        handler t { name := name, php := php, withQ := w, pest := pest', devcontainer := dev' }
          = .badRequest msg) := by
  have hp : ∀ p d, requestParams
      { name := name, php := php, withQ := w, pest := p, devcontainer := d }
        = requestParams { name := name, php := php, withQ := w, pest := pest, devcontainer := dev } :=
    fun _ _ => rfl
  constructor
  · intro sp h
    have hsp := handler_ok_eq t _ sp h
    refine ⟨by rw [hsp]; rfl, by rw [hsp]; rfl, ?_⟩
    intro pest' dev'
    rw [handler_eq] at h ⊢
    simp only [hp pest' dev']
    split at h
    · cases h
    · split at h
      · cases h
      · split at h
        · cases h
        · rename_i h1 h2 h3
          simp only [h1, h2, h3, if_false]
          rw [hsp]
          rfl
  · intro msg h pest' dev'
    rw [handler_eq] at h ⊢
    simp only [hp pest' dev']
    split at h
    · rename_i h1
      simp only [h1, if_true]
      exact h
    · split at h
      · rename_i h1 h2
        simp only [h1, h2, if_true, if_false]
        exact h
      · split at h
        · rename_i h1 h2 h3
          simp only [h1, h2, h3, if_true, if_false]
          exact h
        · cases h

/-- C10, at the request name=my-app, php=83, with=none with both flags. -/
theorem handler_flags_frame_witness :
    handler asciiTables (mkRequest "my-app" "83" "none" false false)
      = .ok { Name := "my-app", Php := "83", With := "none", Services := "none",
              Database := "",
              Pest := if false then "--pest" else "",
              Devcontainer := if false then "--devcontainer" else "" } ∧
    (buildScript (requestParams (mkRequest "my-app" "83" "none" true true)) true true).Pest
      = (if true then "--pest" else "") :=
  ⟨((handler_flags_frame asciiTables "my-app" (some "83") (some "none") true true).1
      (buildScript (requestParams (mkRequest "my-app" "83" "none" true true)) true true)
      (by rfl)).2.2 false false,
   ((handler_flags_frame asciiTables "my-app" (some "83") (some "none") true true).1 _
      (by rfl)).1⟩

/-! ## Splitting and joining -/

theorem splitChars_ne_nil (sep : Char) (cs : List Char) : splitChars sep cs ≠ [] := by
  cases cs with
  | nil => simp [splitChars]
  | cons c cs =>
    unfold splitChars
    by_cases h : c = sep
    · simp [h]
    · simp only [h, if_false]
      cases splitChars sep cs <;> simp

theorem splitChars_cons_sep (sep : Char) (cs : List Char) :
    splitChars sep (sep :: cs) = [] :: splitChars sep cs := by
  simp [splitChars]

theorem splitChars_cons_ne (sep c : Char) (cs t : List Char) (ts : List (List Char))
    (hc : c ≠ sep) (h : splitChars sep cs = t :: ts) :
    splitChars sep (c :: cs) = (c :: t) :: ts := by
  simp [splitChars, hc, h]

theorem splitChars_of_not_mem (sep : Char) (cs : List Char) (h : sep ∉ cs) :
    splitChars sep cs = [cs] := by
  induction cs with
  | nil => rfl
  | cons c cs ih =>
    have hc : c ≠ sep := fun e => h (by simp [e])
    have hcs : sep ∉ cs := fun hm => h (List.mem_cons_of_mem _ hm)
    exact splitChars_cons_ne sep c cs cs [] hc (ih hcs)

theorem splitChars_append_sep (sep : Char) (a b : List Char) :
    splitChars sep (a ++ sep :: b) = splitChars sep a ++ splitChars sep b := by
  induction a with
  | nil => simp [splitChars]
  | cons c a ih =>
    by_cases hc : c = sep
    · subst hc
      simp only [List.cons_append, splitChars_cons_sep, ih]
    · obtain ⟨t, ts, hts⟩ : ∃ t ts, splitChars sep a = t :: ts := by
        cases h : splitChars sep a with
        | nil => exact absurd h (splitChars_ne_nil sep a)
        | cons t ts => exact ⟨t, ts, rfl⟩
      rw [List.cons_append, splitChars_cons_ne sep c a t ts hc hts,
        splitChars_cons_ne sep c (a ++ sep :: b) t (ts ++ splitChars sep b) hc (by rw [ih, hts]; rfl)]
      rfl

theorem Split_ne_nil (w : String) (sep : Char) : Split w sep ≠ [] := by
  unfold Split
  simpa using splitChars_ne_nil sep w.data

theorem Split_of_not_mem (a : String) (sep : Char) (h : sep ∉ a.data) : Split a sep = [a] := by
  unfold Split
  rw [splitChars_of_not_mem sep a.data h]
  rfl

theorem Split_append_sep (a b : String) (sep : Char) :
    Split (a ++ String.mk [sep] ++ b) sep = Split a sep ++ Split b sep := by
  unfold Split
  have hd : (a ++ String.mk [sep] ++ b).data = a.data ++ sep :: b.data := by
    simp [String.data_append]
  rw [hd, splitChars_append_sep, List.map_append]

theorem foldl_Join_append (sep : String) (l : List String) : ∀ a b : String,
    l.foldl (fun b s => b ++ sep ++ s) (a ++ b) = a ++ l.foldl (fun b s => b ++ sep ++ s) b := by
  induction l with
  | nil => intro a b; rfl
  | cons x l ih =>
    intro a b
    simp only [List.foldl_cons]
    rw [String.append_assoc a b sep, String.append_assoc a (b ++ sep) x, ih]

theorem Join_singleton (a sep : String) : Join [a] sep = a := rfl

theorem Join_cons_cons (a b sep : String) (l : List String) :
    Join (a :: b :: l) sep = a ++ sep ++ Join (b :: l) sep := by
  unfold Join
  simp only [List.foldl_cons]
  exact foldl_Join_append sep l (a ++ sep) b

theorem Join_head_append (a b sep : String) (l : List String) :
    Join ((a ++ b) :: l) sep = a ++ Join (b :: l) sep := by
  unfold Join
  exact foldl_Join_append sep l a b

theorem Split_Join (sep : Char) (l : List String) (hne : l ≠ [])
    (h : ∀ x ∈ l, sep ∉ x.data) : Split (Join l (String.mk [sep])) sep = l := by
  induction l with
  | nil => exact absurd rfl hne
  | cons a l ih =>
    have ha : sep ∉ a.data := h a (by simp)
    cases l with
    | nil => rw [Join_singleton, Split_of_not_mem a sep ha]
    | cons b l =>
      rw [Join_cons_cons, Split_append_sep, Split_of_not_mem a sep ha,
        ih (by simp) (fun x hx => h x (List.mem_cons_of_mem _ hx))]
      rfl

theorem Join_splitChars (sep : Char) (cs : List Char) :
    Join ((splitChars sep cs).map String.mk) (String.mk [sep]) = String.mk cs := by
  induction cs with
  | nil => rfl
  | cons c cs ih =>
    obtain ⟨t, ts, hts⟩ : ∃ t ts, splitChars sep cs = t :: ts := by
      cases h : splitChars sep cs with
      | nil => exact absurd h (splitChars_ne_nil sep cs)
      | cons t ts => exact ⟨t, ts, rfl⟩
    rw [hts] at ih
    by_cases hc : c = sep
    · subst hc
      rw [splitChars_cons_sep, hts]
      simp only [List.map_cons] at ih ⊢
      rw [Join_cons_cons, ih]
      rfl
    · rw [splitChars_cons_ne sep c cs t ts hc hts]
      simp only [List.map_cons] at ih ⊢
      have hm : String.mk (c :: t) = String.mk [c] ++ String.mk t := rfl
      rw [hm, Join_head_append, ih]
      rfl

theorem Join_Split (w : String) (sep : Char) :
    Join (Split w sep) (String.mk [sep]) = w := by
  unfold Split
  rw [Join_splitChars]

theorem Uniq_of_nodup (l : List String) (h : l.Nodup) : Uniq l = l := by
  induction l with
  | nil => rfl
  | cons a l ih =>
    rw [List.nodup_cons] at h
    rw [Uniq_cons, ih h.2]
    congr 1
    rw [List.filter_eq_self]
    intro y hy
    have : y ≠ a := fun e => h.1 (e ▸ hy)
    simpa using this

/-! ## Accepted requests -/

theorem validateServices_iff (l : List String) :
    validateServices l = true ↔
      l = ["none"] ∨ (l.length ≠ 1 ∧ ∀ x ∈ l, x ∈ availableServices) := by
  match l with
  | [] => simp [validateServices, servicesLoop]
  | [x] => simp [validateServices]
  | x :: y :: r =>
    rw [validateServices_of_two_le _ (by simp), servicesLoop_iff]
    simp

theorem handler_ok_rules (t : RangeTables) (req : Request) (sp : scriptParams)
    (h : handler t req = .ok sp) :
    validateAlphaDash t req.name = true ∧
    validatePhpVersion (requestParams req).Php = true ∧
    isGt0 (requestParams req).With = true ∧
    validateServices (requestParams req).With = true := by
  rw [handler_eq] at h
  split at h
  · cases h
  · split at h
    · cases h
    · split at h
      · cases h
      · rename_i h1 h2 h3
        simp only [Bool.not_eq_false, Bool.and_eq_true] at h1 h2 h3
        exact ⟨h1, h2, h3.1, h3.2⟩

theorem handler_of_rules (t : RangeTables) (req : Request)
    (h1 : validateAlphaDash t req.name = true)
    (h2 : validatePhpVersion (requestParams req).Php = true)
    (h3 : isGt0 (requestParams req).With = true)
    (h4 : validateServices (requestParams req).With = true) :
    handler t req = .ok (buildScript (requestParams req) req.pest req.devcontainer) := by
  rw [handler_eq]
  simp [h1, h2, h3, h4]

theorem handler_of_services_fail (t : RangeTables) (req : Request)
    (h1 : validateAlphaDash t req.name = true)
    (h2 : validatePhpVersion (requestParams req).Php = true)
    (h4 : validateServices (requestParams req).With = false) :
    handler t req = .badRequest invalidServicesMsg := by
  rw [handler_eq]
  simp [h1, h2, h4]

theorem accepted_list (l : List String) (h : validateServices l = true) :
    ("none" ∈ l → l = ["none"]) ∧ ("none" ∉ l → ∀ x ∈ l, x ∈ availableServices) := by
  rcases (validateServices_iff l).1 h with h | ⟨_, h⟩
  · subst h
    simp
  · exact ⟨fun hn => absurd (h "none" hn) none_not_available, fun _ => h⟩

/-- C11: for every accepted request, the validated service list is exactly the
one-element list none when it contains none, and otherwise consists of members
of the service catalog only. -/
theorem accepted_services_invariant (t : RangeTables) (req : Request) (sp : scriptParams)
    (h : handler t req = .ok sp) :
    ("none" ∈ (requestParams req).With → (requestParams req).With = ["none"]) ∧
    ("none" ∉ (requestParams req).With →
      ∀ x ∈ (requestParams req).With, x ∈ availableServices) :=
  accepted_list _ (handler_ok_rules t req sp h).2.2.2

/-- C11, at the request name=my-app, php=83, with=none,none. -/
theorem accepted_services_invariant_witness :
    ("none" ∈ (requestParams (mkRequest "my-app" "83" "none,none" false false)).With →
      (requestParams (mkRequest "my-app" "83" "none,none" false false)).With = ["none"]) ∧
    ("none" ∉ (requestParams (mkRequest "my-app" "83" "none,none" false false)).With →
      ∀ x ∈ (requestParams (mkRequest "my-app" "83" "none,none" false false)).With,
        x ∈ availableServices) :=
  accepted_services_invariant asciiTables (mkRequest "my-app" "83" "none,none" false false)
    (buildScript (requestParams (mkRequest "my-app" "83" "none,none" false false)) false false)
    (by rfl)

/-- C12: a request with a valid name and no query parameter is handled with
php 83 and with mysql,redis,meilisearch,mailpit,selenium; these defaults pass
validation and give the stated script values. -/
theorem handler_defaults (t : RangeTables) (name : String)
    (hname : validateAlphaDash t name = true) :
    requestParams
        { name := name, php := none, withQ := none, pest := false, devcontainer := false }
      = { Name := name, Php := "83",
          With := ["mysql", "redis", "meilisearch", "mailpit", "selenium"] } ∧
    validatePhpVersion "83" = true ∧
    validateServices ["mysql", "redis", "meilisearch", "mailpit", "selenium"] = true ∧
    handler t { name := name, php := none, withQ := none, pest := false, devcontainer := false }
      = .ok { Name := name, Php := "83",
              With := "mysql,redis,meilisearch,mailpit,selenium",
              Services := "mysql redis meilisearch mailpit selenium",
              Database := "--database mysql", Pest := "", Devcontainer := "" } := by
  have hp : requestParams
        { name := name, php := none, withQ := none, pest := false, devcontainer := false }
      = { Name := name, Php := "83",
          With := ["mysql", "redis", "meilisearch", "mailpit", "selenium"] } := by
    have hu : Uniq (Split "mysql,redis,meilisearch,mailpit,selenium" ',')
        = ["mysql", "redis", "meilisearch", "mailpit", "selenium"] := by decide
    simp only [requestParams, DefaultQuery, hu]
  refine ⟨hp, by decide, by decide, ?_⟩
  rw [handler_of_rules t _ hname (by rw [hp]; rfl) (by rw [hp]; rfl) (by rw [hp]; rfl), hp]
  rfl

/-- C12, at the name `my-app`. -/
theorem handler_defaults_witness :
    handler asciiTables
        { name := "my-app", php := none, withQ := none, pest := false, devcontainer := false }
      = .ok { Name := "my-app", Php := "83",
              With := "mysql,redis,meilisearch,mailpit,selenium",
              Services := "mysql redis meilisearch mailpit selenium",
              Database := "--database mysql", Pest := "", Devcontainer := "" } :=
  (handler_defaults asciiTables "my-app" (by decide)).2.2.2

/-- C13: the message for an invalid service list is the fixed text naming the
eleven catalog services in catalog order joined by a comma and a blank; every
request rejected by the service rule gets this same text, and the three
rejection messages are pairwise distinct. -/
theorem invalidServicesMsg_fixed :
    invalidServicesMsg
      = "Invalid service name. Please provide one or more of the supported services (" ++
          Join availableServices ", " ++ ") or \"none\"." ∧
    availableServices.length = 11 ∧
    Join availableServices ", "
      = "mysql, pgsql, mariadb, redis, memcached, meilisearch, typesense, minio, mailpit, selenium, soketi" ∧
    invalidServicesMsg
      = "Invalid service name. Please provide one or more of the supported services (mysql, pgsql, mariadb, redis, memcached, meilisearch, typesense, minio, mailpit, selenium, soketi) or \"none\"." ∧
    (∀ t req, validateAlphaDash t req.name = true →
      validatePhpVersion (requestParams req).Php = true →
      validateServices (requestParams req).With = false →
      handler t req = .badRequest invalidServicesMsg) ∧
    invalidNameMsg ≠ invalidPhpMsg ∧ invalidNameMsg ≠ invalidServicesMsg ∧
    invalidPhpMsg ≠ invalidServicesMsg := by
  refine ⟨rfl, rfl, by rfl, by rfl, ?_, by decide, by decide, by decide⟩
  intro t req h1 h2 h4
  exact handler_of_services_fail t req h1 h2 h4

/-- C13, at the requests with=bogus and with=none,mysql: the same text. -/
theorem invalidServicesMsg_fixed_witness :
    handler asciiTables (mkRequest "my-app" "83" "bogus" false false)
      = .badRequest invalidServicesMsg ∧
    handler asciiTables (mkRequest "my-app" "83" "none,mysql" false false)
      = .badRequest invalidServicesMsg :=
  ⟨invalidServicesMsg_fixed.2.2.2.2.1 asciiTables _ (by decide) (by decide) (by decide),
   invalidServicesMsg_fixed.2.2.2.2.1 asciiTables _ (by decide) (by decide) (by decide)⟩

theorem Uniq_ne_nil (l : List String) (h : l ≠ []) : Uniq l ≠ [] := by
  cases l with
  | nil => exact absurd rfl h
  | cons a l => rw [Uniq_cons]; simp

theorem isGt0_of_ne_nil (l : List String) (h : l ≠ []) : isGt0 l = true := by
  cases l with
  | nil => exact absurd rfl h
  | cons a l => simp [isGt0]

theorem isGt0_Uniq_Split (w : String) : isGt0 (Uniq (Split w ',')) = true :=
  isGt0_of_ne_nil _ (Uniq_ne_nil _ (Split_ne_nil w ','))

theorem empty_not_available : "" ∉ availableServices := by decide

theorem validateServices_of_empty_token (l : List String) (h : "" ∈ l) :
    validateServices (Uniq l) = false := by
  have hm : "" ∈ Uniq l := (mem_Uniq l "").2 h
  cases hv : validateServices (Uniq l) with
  | false => rfl
  | true =>
    rcases (validateServices_iff _).1 hv with h1 | ⟨_, h2⟩
    · rw [h1] at hm
      exact absurd hm (by decide)
    · exact absurd (h2 "" hm) empty_not_available

theorem mem_Split_of_mem_splitChars (w : String) (sep : Char) (cs : List Char)
    (h : cs ∈ splitChars sep w.data) : String.mk cs ∈ Split w sep := by
  unfold Split
  exact List.mem_map_of_mem String.mk h

/-- C14: splitting any `with` value on commas gives at least one token, so the
rule `gt=0` holds for every request; and a request with a valid name and a
supported PHP version whose `with` value has an empty token (the empty value, a
leading comma, a trailing comma or two adjacent commas) is rejected with the
service message. -/
theorem empty_token_rejected :
    (∀ w : String, Split w ',' ≠ [] ∧ Uniq (Split w ',') ≠ [] ∧
      isGt0 (Uniq (Split w ',')) = true) ∧
    (∀ req : Request, isGt0 (requestParams req).With = true) ∧
    (∀ w : String,
      (w = "" ∨ (∃ r, w.data = ',' :: r) ∨ (∃ r, w.data = r ++ [',']) ∨
        (∃ a b, w.data = a ++ ',' :: ',' :: b)) →
      "" ∈ Split w ',') ∧
    (∀ t req, validateAlphaDash t req.name = true →
      validatePhpVersion (requestParams req).Php = true →
      "" ∈ Split (DefaultQuery req.withQ "mysql,redis,meilisearch,mailpit,selenium") ',' →
      handler t req = .badRequest invalidServicesMsg) := by
  have hgt : ∀ w : String, Split w ',' ≠ [] ∧ Uniq (Split w ',') ≠ [] ∧
      isGt0 (Uniq (Split w ',')) = true := fun w =>
    ⟨Split_ne_nil w ',', Uniq_ne_nil _ (Split_ne_nil w ','),
      isGt0_of_ne_nil _ (Uniq_ne_nil _ (Split_ne_nil w ','))⟩
  refine ⟨hgt, fun req => (hgt _).2.2, ?_, ?_⟩
  · intro w h
    apply mem_Split_of_mem_splitChars w ',' []
    rcases h with h | ⟨r, h⟩ | ⟨r, h⟩ | ⟨a, b, h⟩
    · subst h
      simp [splitChars]
    · rw [h, splitChars_cons_sep]
      simp
    · rw [h, splitChars_append_sep]
      simp [splitChars]
    · rw [h, splitChars_append_sep, splitChars_cons_sep]
      simp
  · intro t req h1 h2 h3
    exact handler_of_services_fail t req h1 h2 (validateServices_of_empty_token _ h3)

/-- C14, at the values `mysql,` (trailing comma) and `mysql,,redis`. -/
theorem empty_token_rejected_witness :
    "" ∈ Split "mysql," ',' ∧
    handler asciiTables (mkRequest "my-app" "83" "mysql,," false false)
      = .badRequest invalidServicesMsg ∧
    handler asciiTables (mkRequest "my-app" "83" "mysql,,redis" false false)
      = .badRequest invalidServicesMsg :=
  ⟨empty_token_rejected.2.2.1 "mysql," (Or.inr (Or.inr (Or.inl ⟨"mysql".data, by decide⟩))),
   empty_token_rejected.2.2.2 asciiTables _ (by decide) (by decide)
     (empty_token_rejected.2.2.1 "mysql,,"
       (Or.inr (Or.inr (Or.inr ⟨"mysql".data, [], by decide⟩)))),
   empty_token_rejected.2.2.2 asciiTables _ (by decide) (by decide)
     (empty_token_rejected.2.2.1 "mysql,,redis"
       (Or.inr (Or.inr (Or.inr ⟨"mysql".data, "redis".data, by decide⟩))))⟩

theorem Uniq_perm_of_same_set (l₁ l₂ : List String) (h : ∀ x, x ∈ l₁ ↔ x ∈ l₂) :
    (Uniq l₁).Perm (Uniq l₂) := by
  rw [List.perm_ext_iff_of_nodup (nodup_Uniq l₁) (nodup_Uniq l₂)]
  intro x
  rw [mem_Uniq, mem_Uniq, h]

theorem validateServices_perm (l₁ l₂ : List String) (h : l₁.Perm l₂) :
    validateServices l₁ = validateServices l₂ := by
  rw [Bool.eq_iff_iff, validateServices_iff, validateServices_iff, h.length_eq]
  have h1 : l₁ = ["none"] ↔ l₂ = ["none"] := by
    constructor
    · intro e
      rw [e] at h
      exact List.perm_singleton.1 h.symm
    · intro e
      rw [e] at h
      exact List.perm_singleton.1 h
  have h2 : (∀ x ∈ l₁, x ∈ availableServices) ↔ (∀ x ∈ l₂, x ∈ availableServices) := by
    constructor
    · intro hx x hm
      exact hx x (h.mem_iff.2 hm)
    · intro hx x hm
      exact hx x (h.mem_iff.1 hm)
  rw [h1, h2]

theorem databaseOf_same_set (l₁ l₂ : List String) (h : ∀ x, x ∈ l₁ ↔ x ∈ l₂) :
    databaseOf l₁ = databaseOf l₂ := by
  rw [databaseOf_eq, databaseOf_eq]
  simp only [h]

/-- C15: the service decision and the database flag depend only on the set of
tokens: for two token lists with the same members, in particular for two lists
that are permutations of each other, `validateServices` gives the same result
on the deduplicated lists and the database flag is the same. -/
theorem services_depend_on_token_set :
    (∀ l₁ l₂ : List String, (∀ x, x ∈ l₁ ↔ x ∈ l₂) →
      validateServices (Uniq l₁) = validateServices (Uniq l₂) ∧
      databaseOf (Uniq l₁) = databaseOf (Uniq l₂)) ∧
    (∀ l₁ l₂ : List String, l₁.Perm l₂ →
      validateServices (Uniq l₁) = validateServices (Uniq l₂) ∧
      databaseOf (Uniq l₁) = databaseOf (Uniq l₂)) ∧
    (∀ t name php w₁ w₂ pest dev, (∀ x, x ∈ Split w₁ ',' ↔ x ∈ Split w₂ ',') →
      ((∃ sp, handler t (mkRequest name php w₁ pest dev) = .ok sp) ↔
        (∃ sp, handler t (mkRequest name php w₂ pest dev) = .ok sp)) ∧
      (∀ sp₁ sp₂, handler t (mkRequest name php w₁ pest dev) = .ok sp₁ →
        handler t (mkRequest name php w₂ pest dev) = .ok sp₂ →
        sp₁.Database = sp₂.Database)) := by
  have key : ∀ l₁ l₂ : List String, (∀ x, x ∈ l₁ ↔ x ∈ l₂) →
      validateServices (Uniq l₁) = validateServices (Uniq l₂) ∧
      databaseOf (Uniq l₁) = databaseOf (Uniq l₂) := fun l₁ l₂ h =>
    ⟨validateServices_perm _ _ (Uniq_perm_of_same_set l₁ l₂ h),
      databaseOf_same_set _ _ (fun x => by rw [mem_Uniq, mem_Uniq, h])⟩
  refine ⟨key, fun l₁ l₂ h => key l₁ l₂ (fun x => h.mem_iff), ?_⟩
  intro t name php w₁ w₂ pest dev h
  have hv := (key _ _ h).1
  have hd := (key _ _ h).2
  have hn : ∀ w, (mkRequest name php w pest dev).name = name := fun _ => rfl
  constructor
  · constructor
    · rintro ⟨sp, hsp⟩
      obtain ⟨a, b, _, d⟩ := handler_ok_rules t _ sp hsp
      rw [requestParams_mkRequest] at b d
      exact ⟨_, handler_of_rules t (mkRequest name php w₂ pest dev) (by rw [hn]; rw [hn] at a; exact a)
        (by rw [requestParams_mkRequest]; exact b)
        (by rw [requestParams_mkRequest]; exact (isGt0_Uniq_Split w₂))
        (by rw [requestParams_mkRequest]; exact hv ▸ d)⟩
    · rintro ⟨sp, hsp⟩
      obtain ⟨a, b, _, d⟩ := handler_ok_rules t _ sp hsp
      rw [requestParams_mkRequest] at b d
      exact ⟨_, handler_of_rules t (mkRequest name php w₁ pest dev) (by rw [hn]; rw [hn] at a; exact a)
        (by rw [requestParams_mkRequest]; exact b)
        (by rw [requestParams_mkRequest]; exact (isGt0_Uniq_Split w₁))
        (by rw [requestParams_mkRequest]; exact hv.symm ▸ d)⟩
  · intro sp₁ sp₂ h₁ h₂
    rw [handler_ok_eq t _ sp₁ h₁, handler_ok_eq t _ sp₂ h₂]
    exact hd

/-- C15, at the token lists pgsql, redis, pgsql and redis, pgsql. -/
theorem services_depend_on_token_set_witness :
    validateServices (Uniq ["pgsql", "redis", "pgsql"])
      = validateServices (Uniq ["redis", "pgsql"]) ∧
    databaseOf (Uniq ["pgsql", "redis", "pgsql"]) = databaseOf (Uniq ["redis", "pgsql"]) :=
  services_depend_on_token_set.1 ["pgsql", "redis", "pgsql"] ["redis", "pgsql"]
    (fun x => by simp [or_comm])

/-- C16: for every accepted request the Database value is empty exactly when
the validated list is the one-element list none, `--database pgsql` exactly
when pgsql is in the list, `--database mariadb` exactly when mariadb is in the
list and pgsql is not, and `--database mysql` in every remaining case, whether
or not mysql was named. -/
theorem accepted_database_cases (t : RangeTables) (req : Request) (sp : scriptParams)
    (h : handler t req = .ok sp) :
    (sp.Database = "" ↔ (requestParams req).With = ["none"]) ∧
    (sp.Database = "--database pgsql" ↔ "pgsql" ∈ (requestParams req).With) ∧
    (sp.Database = "--database mariadb" ↔
      "mariadb" ∈ (requestParams req).With ∧ "pgsql" ∉ (requestParams req).With) ∧
    (sp.Database = "--database mysql" ↔
      "pgsql" ∉ (requestParams req).With ∧ "mariadb" ∉ (requestParams req).With ∧
        (requestParams req).With ≠ ["none"]) ∧
    (∀ s, handler t (mkRequest "my-app" "83" "redis,mailpit" false false) = .ok s →
      "mysql" ∉ (requestParams (mkRequest "my-app" "83" "redis,mailpit" false false)).With ∧
      s.Database = "--database mysql") := by
  have hacc := accepted_list _ (handler_ok_rules t req sp h).2.2.2
  have hdb : sp.Database = databaseOf (requestParams req).With := by
    rw [handler_ok_eq t req sp h]; rfl
  have hnone : (requestParams req).With = ["none"] ↔ "none" ∈ (requestParams req).With :=
    ⟨fun e => by rw [e]; simp, hacc.1⟩
  have hp : "none" ∈ (requestParams req).With → "pgsql" ∉ (requestParams req).With := by
    intro hn hm
    rw [hacc.1 hn] at hm
    exact absurd hm (by decide)
  have hm : "none" ∈ (requestParams req).With → "mariadb" ∉ (requestParams req).With := by
    intro hn hm
    rw [hacc.1 hn] at hm
    exact absurd hm (by decide)
  have hlast : ∀ s, handler t (mkRequest "my-app" "83" "redis,mailpit" false false) = .ok s →
      "mysql" ∉ (requestParams (mkRequest "my-app" "83" "redis,mailpit" false false)).With ∧
      s.Database = "--database mysql" := by
    intro s hs
    refine ⟨by decide, ?_⟩
    rw [handler_ok_eq _ _ s hs]
    rfl
  refine ⟨?_, ?_, ?_, ?_, hlast⟩ <;> rw [hdb, databaseOf_eq]
  all_goals
    by_cases h3 : "none" ∈ (requestParams req).With
    · have h1 := hp h3
      have h2 := hm h3
      simp [h1, h2, h3, hnone]
    · by_cases h1 : "pgsql" ∈ (requestParams req).With
      · by_cases h2 : "mariadb" ∈ (requestParams req).With
        · simp [h1, h2, h3, hnone]
        · simp [h1, h2, h3, hnone]
      · by_cases h2 : "mariadb" ∈ (requestParams req).With
        · simp [h1, h2, h3, hnone]
        · simp [h1, h2, h3, hnone]

/-- C16, at the request name=my-app, php=83, with=redis,mariadb. -/
theorem accepted_database_cases_witness :
    ((buildScript (requestParams (mkRequest "my-app" "83" "redis,mariadb" false false))
        false false).Database = "--database mariadb" ↔
      "mariadb" ∈ (requestParams (mkRequest "my-app" "83" "redis,mariadb" false false)).With ∧
      "pgsql" ∉ (requestParams (mkRequest "my-app" "83" "redis,mariadb" false false)).With) :=
  (accepted_database_cases asciiTables (mkRequest "my-app" "83" "redis,mariadb" false false)
    (buildScript (requestParams (mkRequest "my-app" "83" "redis,mariadb" false false))
      false false) (by rfl)).2.2.1

theorem token_clean : ∀ x ∈ "none" :: availableServices,
    x ≠ "" ∧ ',' ∉ x.data ∧ ' ' ∉ x.data := by
  decide

theorem accepted_token_clean (l : List String) (h : validateServices l = true) :
    ∀ x ∈ l, x ≠ "" ∧ ',' ∉ x.data ∧ ' ' ∉ x.data := by
  intro x hx
  apply token_clean
  rcases (validateServices_iff l).1 h with h1 | ⟨_, h2⟩
  · rw [h1] at hx
    simp only [List.mem_singleton] at hx
    simp [hx]
  · exact List.mem_cons_of_mem _ (h2 x hx)

/-- C17: for every accepted request, splitting With on the comma and splitting
Services on the blank both give back the validated service list, whose tokens
are non-empty and contain neither a comma nor a blank; and when the comma-split
of the raw `with` value has no repeated token, With is the raw value. -/
theorem joined_outputs_lossless (t : RangeTables) (req : Request) (sp : scriptParams)
    (h : handler t req = .ok sp) :
    Split sp.With ',' = (requestParams req).With ∧
    Split sp.Services ' ' = (requestParams req).With ∧
    (∀ x ∈ (requestParams req).With, x ≠ "" ∧ ',' ∉ x.data ∧ ' ' ∉ x.data) ∧
    ((Split (DefaultQuery req.withQ "mysql,redis,meilisearch,mailpit,selenium") ',').Nodup →
      sp.With = DefaultQuery req.withQ "mysql,redis,meilisearch,mailpit,selenium") := by
  have hv := (handler_ok_rules t req sp h).2.2.2
  have hclean := accepted_token_clean _ hv
  have hne : (requestParams req).With ≠ [] := Uniq_ne_nil _ (Split_ne_nil _ ',')
  have hw : sp.With = Join (requestParams req).With (String.mk [',']) := by
    rw [handler_ok_eq t req sp h]; rfl
  have hs : sp.Services = Join (requestParams req).With (String.mk [' ']) := by
    rw [handler_ok_eq t req sp h]; rfl
  refine ⟨?_, ?_, hclean, ?_⟩
  · rw [hw]
    exact Split_Join ',' _ hne (fun x hx => (hclean x hx).2.1)
  · rw [hs]
    exact Split_Join ' ' _ hne (fun x hx => (hclean x hx).2.2)
  · intro hnd
    have hu : (requestParams req).With
        = Split (DefaultQuery req.withQ "mysql,redis,meilisearch,mailpit,selenium") ',' :=
      Uniq_of_nodup _ hnd
    rw [hw, hu]
    exact Join_Split _ ','

/-- C17, at the request name=my-app, php=82, with=redis,pgsql. -/
theorem joined_outputs_lossless_witness :
    Split (buildScript (requestParams (mkRequest "my-app" "82" "redis,pgsql" false false))
      false false).With ',' = ["redis", "pgsql"] ∧
    Split (buildScript (requestParams (mkRequest "my-app" "82" "redis,pgsql" false false))
      false false).Services ' ' = ["redis", "pgsql"] ∧
    (buildScript (requestParams (mkRequest "my-app" "82" "redis,pgsql" false false))
      false false).With = "redis,pgsql" :=
  ⟨(joined_outputs_lossless asciiTables (mkRequest "my-app" "82" "redis,pgsql" false false)
      _ (by rfl)).1,
   (joined_outputs_lossless asciiTables (mkRequest "my-app" "82" "redis,pgsql" false false)
      _ (by rfl)).2.1,
   (joined_outputs_lossless asciiTables (mkRequest "my-app" "82" "redis,pgsql" false false)
      _ (by rfl)).2.2.2 (by decide)⟩

theorem Uniq_replicate (a : String) (n : Nat) : Uniq (List.replicate (n + 1) a) = [a] := by
  rw [List.replicate_succ, Uniq_cons]
  congr 1
  rw [List.filter_eq_nil_iff]
  intro y hy
  rw [mem_Uniq] at hy
  simp [List.eq_of_mem_replicate hy]

/-- C18: deduplication runs before the sentinel check: for every n of at least
one, a request with a valid name and a supported PHP version whose `with` value
is n copies of none separated by commas is accepted with the service list none,
With none, Services none and an empty Database. -/
theorem none_copies_accepted (n : Nat) (hn : 1 ≤ n) :
    Split (Join (List.replicate n "none") ",") ',' = List.replicate n "none" ∧
    Uniq (Split (Join (List.replicate n "none") ",") ',') = ["none"] ∧
    (∀ t name php pest dev, validateAlphaDash t name = true →
      validatePhpVersion php = true →
      handler t (mkRequest name php (Join (List.replicate n "none") ",") pest dev)
        = .ok { Name := name, Php := php, With := "none", Services := "none",
                Database := "",
                Pest := if pest then "--pest" else "",
                Devcontainer := if dev then "--devcontainer" else "" }) ∧
    Join (List.replicate 1 "none") "," = "none" ∧
    Join (List.replicate 2 "none") "," = "none,none" ∧
    Join (List.replicate 3 "none") "," = "none,none,none" := by
  obtain ⟨m, rfl⟩ : ∃ m, n = m + 1 := ⟨n - 1, by omega⟩
  have hsplit : Split (Join (List.replicate (m + 1) "none") ",") ','
      = List.replicate (m + 1) "none" := by
    have hsep : ("," : String) = String.mk [','] := rfl
    rw [hsep]
    apply Split_Join ',' _ (by simp [List.replicate_succ])
    intro x hx
    rw [List.eq_of_mem_replicate hx]
    decide
  have huniq : Uniq (Split (Join (List.replicate (m + 1) "none") ",") ',') = ["none"] := by
    rw [hsplit, Uniq_replicate]
  refine ⟨hsplit, huniq, ?_, rfl, rfl, rfl⟩
  intro t name php pest dev h1 h2
  have hp : requestParams (mkRequest name php (Join (List.replicate (m + 1) "none") ",") pest dev)
      = { Name := name, Php := php, With := ["none"] } := by
    rw [requestParams_mkRequest, huniq]
  rw [handler_of_rules t _ h1 (by rw [hp]; exact h2) (by rw [hp]; rfl) (by rw [hp]; rfl), hp]
  rfl

/-- C18, at three copies: the value `none,none,none`. -/
theorem none_copies_accepted_witness :
    Uniq (Split (Join (List.replicate 3 "none") ",") ',') = ["none"] ∧
    handler asciiTables
        (mkRequest "my-app" "83" (Join (List.replicate 3 "none") ",") false false)
      = .ok { Name := "my-app", Php := "83", With := "none", Services := "none",
              Database := "",
              Pest := if false then "--pest" else "",
              Devcontainer := if false then "--devcontainer" else "" } :=
  ⟨(none_copies_accepted 3 (by decide)).2.1,
   (none_copies_accepted 3 (by decide)).2.2.1 asciiTables "my-app" "83" false false
      (by decide) (by decide)⟩

end SailServer
